import Mathlib

/- Shallow embedding of the attendance-system core: the token protocol,
   the event log and state machine, the interval aggregation engine and
   the report/cache layer (src/database.py, src/bot/bot.py,
   src/utils/cache.py).

   Timestamps are modelled as seconds since the epoch (Nat).  The code
   stores ISO-8601 UTC text and compares it with SQL string comparison;
   for the single fixed format the code writes, string order coincides
   with chronological order, so integer order is a faithful model.
   Calendar dates (DATE(ts), ts[:10]) become ts / 86400. -/

/-- Row of the tokens table (src/database.py, init_db). -/
structure Token where
  value : String
  location : String
  created_at : Nat
  expires_at : Option Nat
  used : Bool
deriving Repr, DecidableEq

/-- Row of the events table (src/database.py, init_db). -/
structure Event where
  id : Nat
  user_id : Int
  location : String
  action : String
  ts : Nat
deriving Repr, DecidableEq

/-- Row of the people table (src/database.py, init_db). -/
structure Person where
  tg_user_id : Int
  fio : String
deriving Repr, DecidableEq

/-- The durable store: people, events (append-only) and tokens. -/
structure Db where
  people : List Person
  events : List Event
  tokens : List Token
deriving Repr, DecidableEq

/-- The WHERE clause of mark_token_used_if_valid (database.py:414-416):
    token = v AND used = 0 AND (expires_at IS NULL OR expires_at > now). -/
def tokenConsumable (now : Nat) (v : String) (t : Token) : Bool :=
  t.value = v && t.used = false &&
    (match t.expires_at with
     | none => true
     | some e => now < e)

/-- Database.mark_token_used_if_valid (database.py:408-422): one atomic
    conditional UPDATE; result is rowcount > 0.  The cache invalidation on
    success is modelled separately at the state level. -/
def markTokenUsedIfValid (db : Db) (v : String) (now : Nat) : Bool × Db :=
  let hit := db.tokens.any (tokenConsumable now v)
  (hit,
   { db with
       tokens := db.tokens.map (fun t =>
         if tokenConsumable now v t then { t with used := true } else t) })

/-- The token-validity cache: token value to cached {"valid": b} entry
    (utils/cache.py, CacheKeys.TOKEN namespace).  cache.set overwrites a
    key, modelled by consing (List.lookup finds the newest entry first). -/
def TokenCache := List (String × Bool)
deriving Repr, DecidableEq

/-- Consumability is monotone: a token consumable at a later instant was
    already consumable at any earlier one (used/expiry only shrink). -/
theorem tokenConsumable_mono {now now₂ : Nat} (h : now ≤ now₂) (v : String)
    (t : Token) (hc : tokenConsumable now₂ v t = true) :
    tokenConsumable now v t = true := by
  unfold tokenConsumable at hc ⊢
  cases ht : t.expires_at with
  | none => simpa [ht] using hc
  | some e =>
      simp only [ht, Bool.and_eq_true, decide_eq_true_eq] at hc ⊢
      exact ⟨hc.1, lt_of_le_of_lt h hc.2⟩

/-- Insertion step of a stable insertion sort by ts descending.  SQLite
    leaves the relative order of equal ts values unspecified; the model
    fixes the stable order (earlier row first among equal keys). -/
def insertTsDesc (e : Event) : List Event → List Event
  | [] => [e]
  | x :: xs => if e.ts < x.ts then x :: insertTsDesc e xs else e :: x :: xs

/-- ORDER BY ts DESC over an event list. -/
def sortTsDesc : List Event → List Event
  | [] => []
  | x :: xs => insertTsDesc x (sortTsDesc xs)

/-- Database.get_user_events (database.py:467-475):
    SELECT * FROM events WHERE user_id = ? ORDER BY ts DESC LIMIT ?. -/
def getUserEvents (db : Db) (u : Int) (limit : Nat) : List Event :=
  (sortTsDesc (db.events.filter (fun e => e.user_id = u))).take limit

/-- SQL MAX(id) over one user's rows of the events table (0 for an empty
    group; the grouped query only ever produces nonempty groups). -/
def maxEventId (db : Db) (u : Int) : Nat :=
  ((db.events.filter (fun e => e.user_id = u)).map (fun e => e.id)).foldr max 0

/-- Distinct user_id values appearing in the events table (the GROUP BY
    user_id key set). -/
def eventUserIds (db : Db) : List Int :=
  (db.events.map (fun e => e.user_id)).dedup

/-- Per-user MAX(id) values: SELECT MAX(id) FROM events GROUP BY user_id. -/
def groupMaxIds (db : Db) : List Nat :=
  (eventUserIds db).map (maxEventId db)

/-- Database.get_currently_present (database.py:487-503): events joined to
    people whose id is in the per-user MAX(id) set and whose action is
    'in'.  The ORDER BY ts DESC of the output is not modelled; the claims
    concern membership only. -/
def getCurrentlyPresent (db : Db) : List Event :=
  db.events.filter (fun e =>
    (groupMaxIds db).contains e.id && e.action = "in" &&
      db.people.any (fun p => p.tg_user_id = e.user_id))

theorem insertTsDesc_perm (e : Event) (l : List Event) :
    (insertTsDesc e l).Perm (e :: l) := by
  induction l with
  | nil => exact List.Perm.refl _
  | cons x xs ih =>
      unfold insertTsDesc
      by_cases hx : e.ts < x.ts
      · rw [if_pos hx]
        exact (ih.cons x).trans (List.Perm.swap e x xs)
      · rw [if_neg hx]

theorem sortTsDesc_perm (l : List Event) : (sortTsDesc l).Perm l := by
  induction l with
  | nil => exact List.Perm.refl _
  | cons x xs ih =>
      unfold sortTsDesc
      exact (insertTsDesc_perm x (sortTsDesc xs)).trans (ih.cons x)

/-- Descending-ts order as a pairwise relation. -/
def TsSortedDesc (l : List Event) : Prop :=
  l.Pairwise (fun a b => b.ts ≤ a.ts)

theorem insertTsDesc_sorted (e : Event) (l : List Event)
    (h : TsSortedDesc l) : TsSortedDesc (insertTsDesc e l) := by
  induction l with
  | nil => exact List.pairwise_singleton _ _
  | cons x xs ih =>
      unfold TsSortedDesc at h
      rw [List.pairwise_cons] at h
      unfold insertTsDesc
      by_cases hx : e.ts < x.ts
      · rw [if_pos hx]
        unfold TsSortedDesc
        rw [List.pairwise_cons]
        refine ⟨?_, ih h.2⟩
        intro y hy
        have hy₂ := (insertTsDesc_perm e xs).mem_iff.1 hy
        rw [List.mem_cons] at hy₂
        rcases hy₂ with hy₂ | hy₂
        · subst hy₂; exact Nat.le_of_lt hx
        · exact h.1 y hy₂
      · rw [if_neg hx]
        unfold TsSortedDesc
        rw [List.pairwise_cons]
        refine ⟨?_, by rw [List.pairwise_cons]; exact h⟩
        intro y hy
        rw [List.mem_cons] at hy
        rcases hy with hy | hy
        · subst hy; exact Nat.le_of_not_lt hx
        · exact le_trans (h.1 y hy) (Nat.le_of_not_lt hx)

theorem sortTsDesc_sorted (l : List Event) : TsSortedDesc (sortTsDesc l) := by
  induction l with
  | nil => exact List.Pairwise.nil
  | cons x xs ih => exact insertTsDesc_sorted x (sortTsDesc xs) ih

/-- The single row of get_user_events(u, limit=1) — the row the bot's
    duplicate-state check inspects — is a maximum-ts event of the user,
    and a genuine stored event of that user. -/
theorem getUserEvents_one_max (db : Db) (u : Int) (last : Event)
    (h : getUserEvents db u 1 = [last]) :
    last ∈ db.events ∧ last.user_id = u ∧
      ∀ e ∈ db.events, e.user_id = u → e.ts ≤ last.ts := by
  unfold getUserEvents at h
  set fl := db.events.filter (fun e => e.user_id = u) with hfl
  cases hs : sortTsDesc fl with
  | nil => rw [hs] at h; simp at h
  | cons hd tl =>
      rw [hs] at h
      simp only [List.take_succ_cons, List.take_zero] at h
      have hhd : hd = last := by simpa using h
      rw [hhd] at hs
      have hmem : last ∈ fl := by
        have : last ∈ sortTsDesc fl := by rw [hs]; exact List.mem_cons_self _ _
        exact (sortTsDesc_perm fl).mem_iff.1 this
      rw [hfl] at hmem
      rw [List.mem_filter] at hmem
      refine ⟨hmem.1, by simpa using hmem.2, ?_⟩
      intro e he heu
      have hefl : e ∈ fl := by
        rw [hfl, List.mem_filter]
        exact ⟨he, by simpa using heu⟩
      have hes : e ∈ sortTsDesc fl := (sortTsDesc_perm fl).mem_iff.2 hefl
      rw [hs, List.mem_cons] at hes
      rcases hes with hes | hes
      · rw [hes]
      · have hsorted := sortTsDesc_sorted fl
        rw [hs] at hsorted
        unfold TsSortedDesc at hsorted
        rw [List.pairwise_cons] at hsorted
        exact hsorted.1 e hes

theorem le_foldr_max (a : Nat) (l : List Nat) (h : a ∈ l) :
    a ≤ l.foldr max 0 := by
  induction l with
  | nil => simp at h
  | cons x xs ih =>
      rw [List.mem_cons] at h
      rw [List.foldr_cons]
      rcases h with h | h
      · subst h; exact le_max_left _ _
      · exact le_trans (ih h) (le_max_right _ _)

theorem foldr_max_le (b : Nat) (l : List Nat) (h : ∀ a ∈ l, a ≤ b) :
    l.foldr max 0 ≤ b := by
  induction l with
  | nil => exact Nat.zero_le b
  | cons x xs ih =>
      rw [List.foldr_cons]
      exact max_le (h x (List.mem_cons_self _ _))
        (ih fun a ha => h a (List.mem_cons_of_mem x ha))

theorem foldr_max_mem (l : List Nat) (h : l ≠ []) :
    l.foldr max 0 ∈ l := by
  induction l with
  | nil => exact absurd rfl h
  | cons x xs ih =>
      rw [List.foldr_cons]
      by_cases hxs : xs = []
      · subst hxs
        simp
      · rcases le_or_lt (xs.foldr max 0) x with hle | hlt
        · rw [max_eq_left hle]; exact List.mem_cons_self _ _
        · rw [max_eq_right (le_of_lt hlt)]
          exact List.mem_cons_of_mem x (ih hxs)

/-- The per-user MAX(id) is attained by one of that user's rows. -/
theorem maxEventId_attained (db : Db) (u : Int)
    (h : u ∈ eventUserIds db) :
    ∃ e ∈ db.events, e.user_id = u ∧ e.id = maxEventId db u := by
  unfold eventUserIds at h
  rw [List.mem_dedup, List.mem_map] at h
  obtain ⟨e₀, he₀, hu₀⟩ := h
  have hne : (db.events.filter (fun e => e.user_id = u)).map (fun e => e.id) ≠ [] := by
    intro hnil
    have : e₀ ∈ db.events.filter (fun e => e.user_id = u) := by
      rw [List.mem_filter]
      exact ⟨he₀, by simpa using hu₀⟩
    have := List.mem_map_of_mem (fun e => e.id) this
    rw [hnil] at this
    simp at this
  have hmem := foldr_max_mem _ hne
  rw [List.mem_map] at hmem
  obtain ⟨e, he, hid⟩ := hmem
  rw [List.mem_filter] at he
  exact ⟨e, he.1, by simpa using he.2, hid⟩

/-- Every row of a user is bounded by that user's MAX(id). -/
theorem maxEventId_bound (db : Db) (e : Event) (he : e ∈ db.events) :
    e.id ≤ maxEventId db e.user_id := by
  apply le_foldr_max
  rw [List.mem_map]
  exact ⟨e, by rw [List.mem_filter]; exact ⟨he, by simp⟩, rfl⟩

/-- C4 counterexample: user 7 has event id 1 (action in, ts 100) and event
    id 2 (action out, ts 50).  The duplicate-state check reads
    get_user_events(u, limit=1), which orders by ts, so it inspects the
    id-1 'in' row even though the highest-id row is the id-2 'out' — the
    operation does not select the event with the highest id. -/
theorem c4_counterexample :
    ((getUserEvents
        ⟨[⟨7, "A"⟩],
         [⟨1, 7, "global", "in", 100⟩, ⟨2, 7, "global", "out", 50⟩],
         []⟩ 7 1).map (fun e => e.id) = [1]) ∧
    ((getUserEvents
        ⟨[⟨7, "A"⟩],
         [⟨1, 7, "global", "in", 100⟩, ⟨2, 7, "global", "out", 50⟩],
         []⟩ 7 1).map (fun e => e.action) = ["in"]) ∧
    maxEventId
        ⟨[⟨7, "A"⟩],
         [⟨1, 7, "global", "in", 100⟩, ⟨2, 7, "global", "out", 50⟩],
         []⟩ 7 = 2 := by
  decide

/-- C4 amended: the present-users query does select, per user, exactly the
    highest-id event (given the PRIMARY KEY invariant that ids are
    unique); but the duplicate-state check reads get_user_events with
    limit 1, which selects a maximum-timestamp event of the user — the two
    coincide only when timestamp order agrees with id order. -/
theorem c4_latest_event_selection (db : Db) (u : Int) (last : Event)
    (hids : (db.events.map (fun e => e.id)).Nodup) :
    (∀ e, e ∈ getCurrentlyPresent db ↔
        e ∈ db.events ∧ e.action = "in" ∧
        (∃ p ∈ db.people, p.tg_user_id = e.user_id) ∧
        ∀ e₂ ∈ db.events, e₂.user_id = e.user_id → e₂.id ≤ e.id) ∧
    (getUserEvents db u 1 = [last] →
        last ∈ db.events ∧ last.user_id = u ∧
        ∀ e ∈ db.events, e.user_id = u → e.ts ≤ last.ts) := by
  constructor
  · intro e
    unfold getCurrentlyPresent
    rw [List.mem_filter]
    constructor
    · rintro ⟨he, hcond⟩
      simp only [Bool.and_eq_true, List.contains_eq_any_beq, List.any_eq_true,
        decide_eq_true_eq] at hcond
      obtain ⟨⟨hmax, hact⟩, hppl⟩ := hcond
      obtain ⟨mid, hmid, hbeq⟩ := hmax
      unfold groupMaxIds at hmid
      rw [List.mem_map] at hmid
      obtain ⟨u₂, hu₂, hmidval⟩ := hmid
      obtain ⟨e₃, he₃, he₃u, he₃id⟩ := maxEventId_attained db u₂ hu₂
      have hideq : e.id = e₃.id := by
        have h1 : e.id = mid := by simpa using hbeq
        rw [h1, ← hmidval]
        exact he₃id.symm
      have hee₃ : e = e₃ :=
        List.inj_on_of_nodup_map hids he he₃ hideq
      refine ⟨he, hact, ?_, ?_⟩
      · obtain ⟨p, hp, hpu⟩ := hppl
        exact ⟨p, hp, hpu⟩
      · intro e₂ he₂ hu
        have hb := maxEventId_bound db e₂ he₂
        rw [hu, hee₃, he₃u] at hb
        rw [hee₃, he₃id]
        exact hb
    · rintro ⟨he, hact, ⟨p, hp, hpu⟩, hmax⟩
      refine ⟨he, ?_⟩
      simp only [Bool.and_eq_true, List.contains_eq_any_beq, List.any_eq_true,
        decide_eq_true_eq]
      refine ⟨⟨?_, hact⟩, ⟨p, hp, hpu⟩⟩
      refine ⟨e.id, ?_, by simp⟩
      unfold groupMaxIds
      rw [List.mem_map]
      refine ⟨e.user_id, ?_, ?_⟩
      · unfold eventUserIds
        rw [List.mem_dedup, List.mem_map]
        exact ⟨e, he, rfl⟩
      · apply le_antisymm
        · apply foldr_max_le
          intro a ha
          rw [List.mem_map] at ha
          obtain ⟨e₂, he₂, hae⟩ := ha
          rw [List.mem_filter] at he₂
          rw [← hae]
          exact hmax e₂ he₂.1 (by simpa using he₂.2)
        · exact maxEventId_bound db e he
  · exact getUserEvents_one_max db u last

/-- C4 witness: the two-event store of the counterexample satisfies the
    amended characterization. -/
theorem c4_latest_event_selection_witness :
    ((Db.mk [⟨7, "A"⟩]
        [⟨1, 7, "global", "in", 100⟩, ⟨2, 7, "global", "out", 50⟩]
        []).events.map (fun e => e.id)).Nodup ∧
    ((∀ e, e ∈ getCurrentlyPresent
        ⟨[⟨7, "A"⟩],
         [⟨1, 7, "global", "in", 100⟩, ⟨2, 7, "global", "out", 50⟩], []⟩ ↔
        e ∈ (Db.mk [⟨7, "A"⟩]
              [⟨1, 7, "global", "in", 100⟩, ⟨2, 7, "global", "out", 50⟩]
              []).events ∧ e.action = "in" ∧
        (∃ p ∈ (Db.mk [⟨7, "A"⟩]
              [⟨1, 7, "global", "in", 100⟩, ⟨2, 7, "global", "out", 50⟩]
              []).people, p.tg_user_id = e.user_id) ∧
        ∀ e₂ ∈ (Db.mk [⟨7, "A"⟩]
              [⟨1, 7, "global", "in", 100⟩, ⟨2, 7, "global", "out", 50⟩]
              []).events, e₂.user_id = e.user_id → e₂.id ≤ e.id) ∧
      (getUserEvents
          ⟨[⟨7, "A"⟩],
           [⟨1, 7, "global", "in", 100⟩, ⟨2, 7, "global", "out", 50⟩], []⟩ 7 1 =
          [⟨1, 7, "global", "in", 100⟩] →
        (⟨1, 7, "global", "in", 100⟩ : Event) ∈ (Db.mk [⟨7, "A"⟩]
              [⟨1, 7, "global", "in", 100⟩, ⟨2, 7, "global", "out", 50⟩]
              []).events ∧
        (Event.mk 1 7 "global" "in" 100).user_id = 7 ∧
        ∀ e ∈ (Db.mk [⟨7, "A"⟩]
              [⟨1, 7, "global", "in", 100⟩, ⟨2, 7, "global", "out", 50⟩]
              []).events, e.user_id = 7 →
          e.ts ≤ (Event.mk 1 7 "global" "in" 100).ts)) :=
  ⟨by decide,
   c4_latest_event_selection
     ⟨[⟨7, "A"⟩], [⟨1, 7, "global", "in", 100⟩, ⟨2, 7, "global", "out", 50⟩], []⟩
     7 ⟨1, 7, "global", "in", 100⟩ (by decide)⟩

/-- cache.delete for the token key (invalidate_token in utils/cache.py):
    the key is removed from the cache map. -/
def tokenCacheDelete (c : TokenCache) (v : String) : TokenCache :=
  List.filter (fun p => !(p.1 = v : Bool)) c

/-- mark_token_used_if_valid with its cache side effect (database.py:
    408-422): on success the token's cache entry is invalidated. -/
def markTokenUsedIfValidSt (db : Db) (c : TokenCache) (v : String)
    (now : Nat) : Bool × Db × TokenCache :=
  let r := markTokenUsedIfValid db v now
  (r.1, r.2, if r.1 then tokenCacheDelete c v else c)

/-- AUTOINCREMENT: the next events rowid is larger than every existing
    one. -/
def nextEventId (db : Db) : Nat :=
  (db.events.map (fun e => e.id)).foldr max 0 + 1

/-- Database.create_event (database.py:452-464): append one immutable
    event row stamped with the current instant. -/
def createEvent (db : Db) (u : Int) (loc act : String) (now : Nat) : Db :=
  { db with events := db.events ++ [⟨nextEventId db, u, loc, act, now⟩] }

/-- Database.create_token (database.py:379-392): insert a fresh unused
    global token expiring 24 h from now.  The random token string is an
    input of the model. -/
def createToken (db : Db) (tokenVal : String) (now : Nat) : Db :=
  { db with
      tokens := db.tokens ++ [⟨tokenVal, "global", now, some (now + 86400), false⟩] }

/-- Outcomes of AttendanceBot.handle_callback (each corresponds to one
    edit_message_text branch). -/
inductive CallbackResult where
  | tokenRejected
  | personNotFound
  | unknownAction
  | duplicateRejected
  | accepted
deriving Repr, DecidableEq

/-- The callback-data to action-code mapping of handle_callback
    (bot.py:291-299). -/
def actionCodeOf (action : String) : Option String :=
  if action = "checkin" then some "in"
  else if action = "checkout" then some "out"
  else none

/-- AttendanceBot.handle_callback (bot.py:243-364) for a scan callback:
    atomically consume the token first; then look up the person; then run
    the duplicate-state check on get_user_events(user, limit=1); only on
    acceptance append the event and mint a replacement token. -/
def handleCallback (db : Db) (c : TokenCache) (userId : Int)
    (action token newToken : String) (now : Nat) :
    CallbackResult × Db × TokenCache :=
  let m := markTokenUsedIfValidSt db c token now
  let db₁ := m.2.1
  let c₁ := m.2.2
  if m.1 = false then (.tokenRejected, db₁, c₁)
  else if (db₁.people.find? (fun p => p.tg_user_id = userId)).isNone then
    (.personNotFound, db₁, c₁)
  else
    match actionCodeOf action with
    | none => (.unknownAction, db₁, c₁)
    | some code =>
        match getUserEvents db₁ userId 1 with
        | last :: _ =>
            if code = "in" ∧ last.action = "in" then
              (.duplicateRejected, db₁, c₁)
            else if code = "out" ∧ last.action = "out" then
              (.duplicateRejected, db₁, c₁)
            else
              (.accepted,
               createToken (createEvent db₁ userId "global" code now) newToken now,
               c₁)
        | [] =>
            if code = "out" then (.duplicateRejected, db₁, c₁)
            else
              (.accepted,
               createToken (createEvent db₁ userId "global" code now) newToken now,
               c₁)

/-- Outcomes of AttendanceBot.handle_remote_start (bot.py:447-477). -/
inductive RemoteStartResult where
  | personNotFound
  | sessionOpenRejected
  | started
deriving Repr, DecidableEq

/-- AttendanceBot.handle_remote_start (bot.py:447-477): reject whenever
    the latest event's action is 'in', whatever its location; otherwise
    append an in@remote event. -/
def handleRemoteStart (db : Db) (userId : Int) (now : Nat) :
    RemoteStartResult × Db :=
  if (db.people.find? (fun p => p.tg_user_id = userId)).isNone then
    (.personNotFound, db)
  else
    match getUserEvents db userId 1 with
    | last :: _ =>
        if last.action = "in" then (.sessionOpenRejected, db)
        else (.started, createEvent db userId "remote" "in" now)
    | [] => (.started, createEvent db userId "remote" "in" now)

/-- After mark_token_used_if_valid runs, no token of that value is
    consumable at the same or any later instant, whatever the result. -/
theorem markTokenUsedIfValid_post_not_consumable (db : Db) (v : String)
    {now now₂ : Nat} (h : now ≤ now₂) :
    ∀ t₂ ∈ (markTokenUsedIfValid db v now).2.tokens,
      tokenConsumable now₂ v t₂ = false := by
  intro t₂ hmem
  simp only [markTokenUsedIfValid, List.mem_map] at hmem
  obtain ⟨t, ht, hft⟩ := hmem
  by_contra hne
  rw [Bool.not_eq_false] at hne
  by_cases hc : tokenConsumable now v t = true
  · rw [if_pos hc] at hft
    subst hft
    unfold tokenConsumable at hne
    simp at hne
  · rw [if_neg hc] at hft
    subst hft
    exact hc (tokenConsumable_mono h v t hne)

/-- The conditional token UPDATE leaves the people table unchanged. -/
theorem mark_people (db : Db) (v : String) (now : Nat) :
    (markTokenUsedIfValid db v now).2.people = db.people := rfl

/-- The conditional token UPDATE leaves the event log unchanged. -/
theorem mark_events (db : Db) (v : String) (now : Nat) :
    (markTokenUsedIfValid db v now).2.events = db.events := rfl

/-- get_user_events reads only the event log, which the token UPDATE does
    not touch. -/
theorem getUserEvents_after_mark (db : Db) (v : String) (now : Nat)
    (u : Int) (n : Nat) :
    getUserEvents (markTokenUsedIfValid db v now).2 u n
      = getUserEvents db u n := rfl


/-- Whenever handle_callback answers duplicate-state, the state it leaves
    behind is exactly the post-token-consumption state: the rejection
    paths return before create_event and create_token. -/
theorem handleCallback_rejected_state (db : Db) (c : TokenCache) (u : Int)
    (act tok ntok : String) (now : Nat)
    (h : (handleCallback db c u act tok ntok now).1
      = CallbackResult.duplicateRejected) :
    handleCallback db c u act tok ntok now =
      (CallbackResult.duplicateRejected, (markTokenUsedIfValid db tok now).2,
        tokenCacheDelete c tok) := by
  simp only [handleCallback, markTokenUsedIfValidSt] at h ⊢
  rw [mark_people, getUserEvents_after_mark] at h ⊢
  cases hm : (markTokenUsedIfValid db tok now).1 with
  | false => simp [hm] at h
  | true =>
      simp only [hm] at h ⊢
      rw [if_neg (show ¬((true : Bool) = false) by simp)] at h ⊢
      simp only [if_true] at h ⊢
      by_cases hpp : ((db.people.find? (fun p => p.tg_user_id = u)).isNone : Prop)
      · simp [hpp] at h
      · simp only [if_neg hpp] at h ⊢
        cases hac : actionCodeOf act with
        | none => rw [hac] at h; simp at h
        | some code =>
            rw [hac] at h
            cases hge : getUserEvents db u 1 with
            | nil =>
                rw [hge] at h
                by_cases hco : code = "out"
                · simp [hco]
                · simp [hco] at h
            | cons last tail =>
                rw [hge] at h
                by_cases h3 : code = "in" ∧ last.action = "in"
                · simp [h3]
                · simp only [if_neg h3] at h ⊢
                  by_cases h4 : code = "out" ∧ last.action = "out"
                  · simp [h4]
                  · simp only [if_neg h4] at h ⊢
                    simp at h

/-- C3 counterexample: user 7's highest-id event (id 2) is an 'out', so
    the claim — whose notion of latest event the spec pins to highest
    id — demands that an attempted checkout be rejected as a duplicate
    with no event appended; but handle_callback's duplicate-state check
    reads the max-timestamp row (id 1, an 'in'), so the checkout is
    accepted and a third event is appended to the store. -/
theorem c3_counterexample :
    (∀ e ∈ (Db.mk [⟨7, "A"⟩]
        [⟨1, 7, "global", "in", 100⟩, ⟨2, 7, "global", "out", 50⟩]
        [⟨"tok", "global", 0, some 900, false⟩]).events,
      e.id = maxEventId
        ⟨[⟨7, "A"⟩],
         [⟨1, 7, "global", "in", 100⟩, ⟨2, 7, "global", "out", 50⟩],
         [⟨"tok", "global", 0, some 900, false⟩]⟩ 7 → e.action = "out") ∧
    ((handleCallback
        ⟨[⟨7, "A"⟩],
         [⟨1, 7, "global", "in", 100⟩, ⟨2, 7, "global", "out", 50⟩],
         [⟨"tok", "global", 0, some 900, false⟩]⟩ [] 7 "checkout" "tok"
        "t2" 5).1 = CallbackResult.accepted) ∧
    ((handleCallback
        ⟨[⟨7, "A"⟩],
         [⟨1, 7, "global", "in", 100⟩, ⟨2, 7, "global", "out", 50⟩],
         [⟨"tok", "global", 0, some 900, false⟩]⟩ [] 7 "checkout" "tok"
        "t2" 5).2.1.events.length = 3) := by
  decide

/-- C3 amended: the duplicate-state checks compare the attempted action
    against the user's latest event by timestamp — the row
    get_user_events(user, limit=1) returns (ORDER BY ts DESC) — not the
    highest-id event.  Relative to that row, a checkin while it is 'in',
    a checkout while it is 'out', and a checkout with no events at all
    are rejected with no event appended; and handle_remote_start is
    rejected whenever that row's action is 'in', regardless of its
    location. -/
theorem c3_alternation_rejected (db : Db) (c : TokenCache) (u : Int)
    (tok ntok : String) (now : Nat)
    (hmark : (markTokenUsedIfValid db tok now).1 = true)
    (hperson : (db.people.find? (fun p => p.tg_user_id = u)).isSome = true) :
    (∀ last rest, getUserEvents db u 1 = last :: rest → last.action = "in" →
        (handleCallback db c u "checkin" tok ntok now).1
            = CallbackResult.duplicateRejected ∧
        (handleCallback db c u "checkin" tok ntok now).2.1.events
            = db.events) ∧
    (∀ last rest, getUserEvents db u 1 = last :: rest → last.action = "out" →
        (handleCallback db c u "checkout" tok ntok now).1
            = CallbackResult.duplicateRejected ∧
        (handleCallback db c u "checkout" tok ntok now).2.1.events
            = db.events) ∧
    (getUserEvents db u 1 = [] →
        (handleCallback db c u "checkout" tok ntok now).1
            = CallbackResult.duplicateRejected ∧
        (handleCallback db c u "checkout" tok ntok now).2.1.events
            = db.events) ∧
    (∀ last rest, getUserEvents db u 1 = last :: rest → last.action = "in" →
        (handleRemoteStart db u now).1 = RemoteStartResult.sessionOpenRejected ∧
        (handleRemoteStart db u now).2.events = db.events) := by
  have hfp : ∃ p, db.people.find? (fun p => p.tg_user_id = u) = some p := by
    cases hq : db.people.find? (fun p => p.tg_user_id = u) with
    | none => rw [hq] at hperson; simp at hperson
    | some p => exact ⟨p, rfl⟩
  obtain ⟨p, hp⟩ := hfp
  refine ⟨?_, ?_, ?_, ?_⟩
  · intro last rest hge hla
    have hred : handleCallback db c u "checkin" tok ntok now
        = (CallbackResult.duplicateRejected, (markTokenUsedIfValid db tok now).2,
           tokenCacheDelete c tok) := by
      simp only [handleCallback, markTokenUsedIfValidSt]
      rw [mark_people, getUserEvents_after_mark]
      simp only [hmark]
      rw [if_neg (show ¬((true : Bool) = false) by simp)]
      simp only [if_true]
      rw [hp, hge, show actionCodeOf "checkin" = some "in" from by decide]
      simp [hla]
    rw [hred]
    exact ⟨rfl, mark_events db tok now⟩
  · intro last rest hge hla
    have hred : handleCallback db c u "checkout" tok ntok now
        = (CallbackResult.duplicateRejected, (markTokenUsedIfValid db tok now).2,
           tokenCacheDelete c tok) := by
      simp only [handleCallback, markTokenUsedIfValidSt]
      rw [mark_people, getUserEvents_after_mark]
      simp only [hmark]
      rw [if_neg (show ¬((true : Bool) = false) by simp)]
      simp only [if_true]
      rw [hp, hge, show actionCodeOf "checkout" = some "out" from by decide]
      simp [hla]
    rw [hred]
    exact ⟨rfl, mark_events db tok now⟩
  · intro hge
    have hred : handleCallback db c u "checkout" tok ntok now
        = (CallbackResult.duplicateRejected, (markTokenUsedIfValid db tok now).2,
           tokenCacheDelete c tok) := by
      simp only [handleCallback, markTokenUsedIfValidSt]
      rw [mark_people, getUserEvents_after_mark]
      simp only [hmark]
      rw [if_neg (show ¬((true : Bool) = false) by simp)]
      simp only [if_true]
      rw [hp, hge, show actionCodeOf "checkout" = some "out" from by decide]
      simp
    rw [hred]
    exact ⟨rfl, mark_events db tok now⟩
  · intro last rest hge hla
    have hred : handleRemoteStart db u now
        = (RemoteStartResult.sessionOpenRejected, db) := by
      simp only [handleRemoteStart]
      rw [hp, hge]
      simp [hla]
    rw [hred]
    exact ⟨rfl, rfl⟩

/-- C3 witness: user 7 whose latest event is an office 'in'; a further
    checkin, a checkout after an 'out'-state store, an out-first store and
    a remote start are all exercised through the amended statement at
    concrete stores. -/
theorem c3_alternation_rejected_witness :
    ((markTokenUsedIfValid
        ⟨[⟨7, "A"⟩], [⟨1, 7, "global", "in", 10⟩],
         [⟨"tok", "global", 0, some 100, false⟩]⟩ "tok" 5).1 = true) ∧
    (((Db.mk [⟨7, "A"⟩] [⟨1, 7, "global", "in", 10⟩]
        [⟨"tok", "global", 0, some 100, false⟩]).people.find?
          (fun p => p.tg_user_id = 7)).isSome = true) ∧
    ((handleCallback
        ⟨[⟨7, "A"⟩], [⟨1, 7, "global", "in", 10⟩],
         [⟨"tok", "global", 0, some 100, false⟩]⟩ [] 7 "checkin" "tok" "t2" 5).1
      = CallbackResult.duplicateRejected) ∧
    ((handleCallback
        ⟨[⟨7, "A"⟩], [⟨1, 7, "global", "in", 10⟩],
         [⟨"tok", "global", 0, some 100, false⟩]⟩ [] 7 "checkin" "tok" "t2" 5).2.1.events
      = [⟨1, 7, "global", "in", 10⟩]) ∧
    ((handleRemoteStart
        ⟨[⟨7, "A"⟩], [⟨1, 7, "global", "in", 10⟩],
         [⟨"tok", "global", 0, some 100, false⟩]⟩ 7 5).1
      = RemoteStartResult.sessionOpenRejected) := by
  have h := c3_alternation_rejected
    ⟨[⟨7, "A"⟩], [⟨1, 7, "global", "in", 10⟩],
     [⟨"tok", "global", 0, some 100, false⟩]⟩ [] 7 "tok" "t2" 5
    (by decide) (by decide)
  have h1 := h.1 ⟨1, 7, "global", "in", 10⟩ [] (by decide) rfl
  have h4 := h.2.2.2 ⟨1, 7, "global", "in", 10⟩ [] (by decide) rfl
  exact ⟨by decide, by decide, h1.1, h1.2, h4.1⟩

/-- C10: whenever handle_callback rejects a scan as duplicate-state, the
    token was already atomically consumed before the check ran, and the
    rejection path neither appends an event, nor restores the token (none
    of that value is consumable now or later), nor mints a replacement
    token (the token table's size is unchanged). -/
theorem c10_token_consumed_on_rejection (db : Db) (c : TokenCache) (u : Int)
    (act tok ntok : String) (now : Nat)
    (h : (handleCallback db c u act tok ntok now).1
      = CallbackResult.duplicateRejected) :
    (handleCallback db c u act tok ntok now).2.1.events = db.events ∧
    (handleCallback db c u act tok ntok now).2.1.tokens.length
      = db.tokens.length ∧
    ∀ now₂, now ≤ now₂ →
      ∀ t ∈ (handleCallback db c u act tok ntok now).2.1.tokens,
        tokenConsumable now₂ tok t = false := by
  rw [handleCallback_rejected_state db c u act tok ntok now h]
  refine ⟨mark_events db tok now, ?_, ?_⟩
  · simp [markTokenUsedIfValid]
  · intro now₂ h₂ t ht
    exact markTokenUsedIfValid_post_not_consumable db tok h₂ t ht

/-- C10 witness: the concrete duplicate-checkin scenario; the token is
    consumed, no event is appended and no replacement token exists. -/
theorem c10_token_consumed_on_rejection_witness :
    ((handleCallback
        ⟨[⟨7, "A"⟩], [⟨1, 7, "global", "in", 10⟩],
         [⟨"tok", "global", 0, some 100, false⟩]⟩ [] 7 "checkin" "tok" "t2" 5).1
      = CallbackResult.duplicateRejected) ∧
    ((handleCallback
        ⟨[⟨7, "A"⟩], [⟨1, 7, "global", "in", 10⟩],
         [⟨"tok", "global", 0, some 100, false⟩]⟩ [] 7 "checkin" "tok" "t2" 5).2.1.events
      = [⟨1, 7, "global", "in", 10⟩]) ∧
    ((handleCallback
        ⟨[⟨7, "A"⟩], [⟨1, 7, "global", "in", 10⟩],
         [⟨"tok", "global", 0, some 100, false⟩]⟩ [] 7 "checkin" "tok" "t2" 5).2.1.tokens.length
      = 1) ∧
    (∀ t ∈ (handleCallback
        ⟨[⟨7, "A"⟩], [⟨1, 7, "global", "in", 10⟩],
         [⟨"tok", "global", 0, some 100, false⟩]⟩ [] 7 "checkin" "tok" "t2" 5).2.1.tokens,
      tokenConsumable 6 "tok" t = false) := by
  have h := c10_token_consumed_on_rejection
    ⟨[⟨7, "A"⟩], [⟨1, 7, "global", "in", 10⟩],
     [⟨"tok", "global", 0, some 100, false⟩]⟩ [] 7 "checkin" "tok" "t2" 5
    (by decide)
  exact ⟨by decide, h.1, h.2.1, h.2.2 6 (by decide)⟩

/-- Insertion step of a stable insertion sort by ts ascending (ORDER BY
    ts, and the Python events_list.sort on ts). -/
def insertTsAsc (e : Event) : List Event → List Event
  | [] => [e]
  | x :: xs => if x.ts ≤ e.ts then x :: insertTsAsc e xs else e :: x :: xs

/-- ORDER BY ts ascending over an event list. -/
def sortTsAsc : List Event → List Event
  | [] => []
  | x :: xs => insertTsAsc x (sortTsAsc xs)

/-- Database.get_events_by_period (database.py:477-485):
    SELECT * FROM events WHERE user_id = ? AND ts >= ? AND ts <= ?
    ORDER BY ts. -/
def getEventsByPeriod (db : Db) (u : Int) (pstart pend : Nat) : List Event :=
  sortTsAsc (db.events.filter (fun e =>
    e.user_id = u && pstart ≤ e.ts && e.ts ≤ pend))

/-- The left-to-right pairing scan of get_work_time (database.py:532-541)
    and of the per-bucket loop of get_pivot_report (database.py:1645-1661):
    an 'in' (re)sets the open-checkin pointer, an 'out' with an open
    pointer closes the pair [open, ts) and clears it, an 'out' without one
    is skipped.  The closed (checkin, checkout) pairs are made explicit;
    the code sums their durations on the fly. -/
def scanPairs : List Event → Option Nat → List (Nat × Nat)
  | [], _ => []
  | e :: rest, openIn =>
      if e.action = "in" then scanPairs rest (some e.ts)
      else if e.action = "out" then
        match openIn with
        | some t => (t, e.ts) :: scanPairs rest none
        | none => scanPairs rest none
      else scanPairs rest openIn

/-- total_seconds: the sum of the closed pairs' durations, as the Python
    loops accumulate it. -/
def pairsSeconds (l : List (Nat × Nat)) : Int :=
  l.foldr (fun p acc => ((p.2 : Int) - (p.1 : Int)) + acc) 0

/-- Database.get_work_time (database.py:525-543) in seconds: scan the
    user's events of one calendar day (window dayT00:00:00..dayT23:59:59)
    and total the paired durations, with no duration guard. -/
def getWorkTimeSeconds (db : Db) (u : Int) (day : Nat) : Int :=
  pairsSeconds (scanPairs
    (getEventsByPeriod db u (day * 86400) (day * 86400 + 86399)) none)

/-- Database.get_work_time's return value (hours). -/
def getWorkTime (db : Db) (u : Int) (day : Nat) : ℚ :=
  (getWorkTimeSeconds db u day : ℚ) / 3600

/-- DATE(ts) / ts[:10]: the calendar date of a timestamp. -/
def dayOf (ts : Nat) : Nat := ts / 86400

/-- The (user, day) cell value of get_pivot_report in seconds
    (database.py:1633-1664): the range query's rows are bucketed by the
    event's own date prefix ts[:10] before pairing, each bucket re-sorted
    by ts and scanned with the pairing loop (no duration guard).  A user
    or day without events yields 0, matching the report's empty cell. -/
def pivotDaySeconds (db : Db) (u : Int) (startDay endDay day : Nat) : Int :=
  pairsSeconds (scanPairs
    (sortTsAsc (db.events.filter (fun e =>
      e.user_id = u && startDay * 86400 ≤ e.ts &&
        e.ts ≤ endDay * 86400 + 86399 && dayOf e.ts = day))) none)

/-- The pairs an aggregate is allowed to count per the spec:
    0 < duration < 86400 seconds. -/
def validPairs (l : List (Nat × Nat)) : List (Nat × Nat) :=
  l.filter (fun p =>
    decide ((0 : Int) < (p.2 : Int) - (p.1 : Int)) &&
      decide ((p.2 : Int) - (p.1 : Int) < 86400))

/-- One value of the daily_hours dictionary of get_top_workers
    (database.py:1339-1349): accumulated seconds and the open-checkin
    pointer (the fio field is display-only and omitted). -/
structure DayAcc where
  total : Int
  checkin : Option Nat
deriving Repr, DecidableEq

/-- Python dict lookup for daily_hours. -/
def lookupAcc (m : List ((Int × Nat) × DayAcc)) (k : Int × Nat) :
    Option DayAcc :=
  match m.find? (fun p => p.1 = k) with
  | some p => some p.2
  | none => none

/-- Python dict store for daily_hours: overwrite in place or append. -/
def setAcc (m : List ((Int × Nat) × DayAcc)) (k : Int × Nat) (v : DayAcc) :
    List ((Int × Nat) × DayAcc) :=
  if (m.find? (fun p => p.1 = k)).isSome then
    m.map (fun p => if p.1 = k then (k, v) else p)
  else m ++ [(k, v)]

/-- Lines 1344-1349 of get_top_workers: closing an entry's open checkin;
    the work value is added only when 0 < work < 86400. -/
def topOutTotal (total : Int) (checkin ts : Nat) : Int :=
  let work : Int := (ts : Int) - (checkin : Int)
  if 0 < work ∧ work < 86400 then total + work else total

/-- One iteration of the get_top_workers event loop
    (database.py:1327-1349), keyed by (tg_user_id, date of the event
    itself). -/
def topStep (m : List ((Int × Nat) × DayAcc)) (e : Event) :
    List ((Int × Nat) × DayAcc) :=
  let k := (e.user_id, dayOf e.ts)
  let a := (lookupAcc m k).getD ⟨0, none⟩
  let m₀ := if (lookupAcc m k).isSome then m else setAcc m k ⟨0, none⟩
  if e.action = "in" then setAcc m₀ k { a with checkin := some e.ts }
  else if e.action = "out" then
    match a.checkin with
    | some t => setAcc m₀ k ⟨topOutTotal a.total t e.ts, none⟩
    | none => m₀
  else m₀

/-- ORDER BY p.tg_user_id, e.ts as a boolean key order. -/
def userTsLe (a b : Event) : Bool :=
  a.user_id < b.user_id || (a.user_id = b.user_id && a.ts ≤ b.ts)

/-- Insertion step of a stable sort by (tg_user_id, ts). -/
def insertUserTs (e : Event) : List Event → List Event
  | [] => [e]
  | x :: xs => if userTsLe x e then x :: insertUserTs e xs else e :: x :: xs

/-- ORDER BY p.tg_user_id, e.ts over an event list. -/
def sortUserTs : List Event → List Event
  | [] => []
  | x :: xs => insertUserTs x (sortUserTs xs)

/-- The daily_hours dictionary get_top_workers builds: people-joined
    in/out events since the cutoff, ordered by (tg_user_id, ts), folded
    through topStep. -/
def topWorkersDailyHours (db : Db) (since : Nat) :
    List ((Int × Nat) × DayAcc) :=
  (sortUserTs (db.events.filter (fun e =>
    since ≤ e.ts && (e.action = "in" || e.action = "out") &&
      db.people.any (fun p => p.tg_user_id = e.user_id)))).foldl topStep []

/-- The total_seconds get_top_workers accumulates for one (user, day)
    key (0 when the key was never created). -/
def topWorkersDayTotal (db : Db) (since : Nat) (u : Int) (day : Nat) : Int :=
  ((lookupAcc (topWorkersDailyHours db since) (u, day)).getD ⟨0, none⟩).total

theorem insertTsAsc_perm (e : Event) (l : List Event) :
    (insertTsAsc e l).Perm (e :: l) := by
  induction l with
  | nil => exact List.Perm.refl _
  | cons x xs ih =>
      unfold insertTsAsc
      by_cases hx : x.ts ≤ e.ts
      · rw [if_pos hx]
        exact (ih.cons x).trans (List.Perm.swap e x xs)
      · rw [if_neg hx]

theorem sortTsAsc_perm (l : List Event) : (sortTsAsc l).Perm l := by
  induction l with
  | nil => exact List.Perm.refl _
  | cons x xs ih =>
      unfold sortTsAsc
      exact (insertTsAsc_perm x (sortTsAsc xs)).trans (ih.cons x)

/-- Ascending-ts order as a pairwise relation. -/
def TsSortedAsc (l : List Event) : Prop :=
  l.Pairwise (fun a b => a.ts ≤ b.ts)

theorem insertTsAsc_sorted (e : Event) (l : List Event)
    (h : TsSortedAsc l) : TsSortedAsc (insertTsAsc e l) := by
  induction l with
  | nil => exact List.pairwise_singleton _ _
  | cons x xs ih =>
      unfold TsSortedAsc at h
      rw [List.pairwise_cons] at h
      unfold insertTsAsc
      by_cases hx : x.ts ≤ e.ts
      · rw [if_pos hx]
        unfold TsSortedAsc
        rw [List.pairwise_cons]
        refine ⟨?_, ih h.2⟩
        intro y hy
        have hy₂ := (insertTsAsc_perm e xs).mem_iff.1 hy
        rw [List.mem_cons] at hy₂
        rcases hy₂ with hy₂ | hy₂
        · subst hy₂; exact hx
        · exact h.1 y hy₂
      · rw [if_neg hx]
        unfold TsSortedAsc
        rw [List.pairwise_cons]
        refine ⟨?_, by rw [List.pairwise_cons]; exact h⟩
        intro y hy
        rw [List.mem_cons] at hy
        rcases hy with hy | hy
        · subst hy; exact Nat.le_of_not_le hx
        · exact le_trans (Nat.le_of_not_le hx) (h.1 y hy)

theorem sortTsAsc_sorted (l : List Event) : TsSortedAsc (sortTsAsc l) := by
  induction l with
  | nil => exact List.Pairwise.nil
  | cons x xs ih => exact insertTsAsc_sorted x (sortTsAsc xs) ih

/-- Every pair the scan closes over an ascending, window-bounded event
    list has checkin ≤ checkout and duration at most the window width. -/
theorem scanPairs_bounds (lo hi : Nat) :
    ∀ (l : List Event) (op : Option Nat),
      TsSortedAsc l →
      (∀ e ∈ l, lo ≤ e.ts ∧ e.ts ≤ hi) →
      (∀ t, op = some t → lo ≤ t ∧ t ≤ hi ∧ ∀ e ∈ l, t ≤ e.ts) →
      ∀ p ∈ scanPairs l op, p.1 ≤ p.2 ∧ p.2 - p.1 ≤ hi - lo := by
  intro l
  induction l with
  | nil =>
      intro op _ _ _ p hp
      simp [scanPairs] at hp
  | cons e rest ih =>
      intro op hsort hrange hop p hp
      unfold TsSortedAsc at hsort
      rw [List.pairwise_cons] at hsort
      have hrest : ∀ x ∈ rest, lo ≤ x.ts ∧ x.ts ≤ hi :=
        fun x hx => hrange x (List.mem_cons_of_mem e hx)
      unfold scanPairs at hp
      by_cases hin : e.action = "in"
      · rw [if_pos hin] at hp
        refine ih (some e.ts) hsort.2 hrest ?_ p hp
        intro t ht
        have ht₂ : t = e.ts := (Option.some.inj ht).symm
        subst ht₂
        exact ⟨(hrange e (List.mem_cons_self _ _)).1,
          (hrange e (List.mem_cons_self _ _)).2, hsort.1⟩
      · rw [if_neg hin] at hp
        by_cases hout : e.action = "out"
        · rw [if_pos hout] at hp
          cases hopv : op with
          | none =>
              rw [hopv] at hp
              exact ih none hsort.2 hrest (fun t ht => absurd ht (by simp)) p hp
          | some t =>
              rw [hopv] at hp
              rw [List.mem_cons] at hp
              rcases hp with hp | hp
              · subst hp
                obtain ⟨hlt, hth, hall⟩ := hop t hopv
                have hte : t ≤ e.ts := hall e (List.mem_cons_self _ _)
                have heh : e.ts ≤ hi := (hrange e (List.mem_cons_self _ _)).2
                exact ⟨hte, by omega⟩
              · exact ih none hsort.2 hrest (fun t₂ ht₂ => absurd ht₂ (by simp)) p hp
        · rw [if_neg hout] at hp
          refine ih op hsort.2 hrest ?_ p hp
          intro t ht
          obtain ⟨h1, h2, h3⟩ := hop t ht
          exact ⟨h1, h2, fun x hx => h3 x (List.mem_cons_of_mem e hx)⟩

/-- When every closed pair is ordered and shorter than a day, the
    unguarded duration total equals the total over only the valid pairs
    (0 < duration < 86400): the others each contribute exactly 0. -/
theorem pairsSeconds_validPairs (l : List (Nat × Nat))
    (h : ∀ p ∈ l, p.1 ≤ p.2 ∧ p.2 - p.1 ≤ 86399) :
    pairsSeconds l = pairsSeconds (validPairs l) := by
  induction l with
  | nil => rfl
  | cons p rest ih =>
      have hp := h p (List.mem_cons_self _ _)
      have hrest := ih (fun q hq => h q (List.mem_cons_of_mem p hq))
      unfold validPairs at hrest ⊢
      rw [List.filter_cons]
      by_cases h1 : (0 : Int) < (p.2 : Int) - (p.1 : Int)
      · have h2 : ((p.2 : Int) - (p.1 : Int)) < 86400 := by omega
        rw [if_pos (by simp [h1, h2])]
        simp only [pairsSeconds, List.foldr_cons] at hrest ⊢
        rw [hrest]
      · have h0 : ((p.2 : Int) - (p.1 : Int)) = 0 := by omega
        rw [if_neg (by simp [h1])]
        simp only [pairsSeconds, List.foldr_cons] at hrest ⊢
        rw [h0, zero_add, hrest]

/-- A store holding an 'out' strictly before its would-be 'in' for one
    user — the malformed pattern of the C6 error-handling sentence. -/
def dbOutThenIn (u : Int) (t1 t2 : Nat) : Db :=
  ⟨[⟨u, "A"⟩],
   [⟨1, u, "global", "out", t1⟩, ⟨2, u, "global", "in", t2⟩], []⟩

/-- C6: in every work-time aggregate a paired in/out with duration ≤ 0 s
    or ≥ 86400 s contributes nothing: get_work_time and the pivot cells
    equal their totals restricted to valid pairs (their windows make every
    closed pair ordered and sub-day, so invalid ones contribute exactly
    0); get_top_workers guards its additions explicitly; and an 'out'
    before its paired 'in' yields total 0 with no error (all functions are
    total). -/
theorem c6_implausible_intervals_discarded :
    (∀ (db : Db) (u : Int) (day : Nat),
      getWorkTimeSeconds db u day =
        pairsSeconds (validPairs (scanPairs
          (getEventsByPeriod db u (day * 86400) (day * 86400 + 86399))
          none))) ∧
    (∀ (db : Db) (u : Int) (s e day : Nat),
      pivotDaySeconds db u s e day =
        pairsSeconds (validPairs (scanPairs
          (sortTsAsc (db.events.filter (fun ev =>
            ev.user_id = u && s * 86400 ≤ ev.ts &&
              ev.ts ≤ e * 86400 + 86399 && dayOf ev.ts = day))) none))) ∧
    (∀ (total : Int) (checkin ts : Nat),
      ¬(0 < (ts : Int) - (checkin : Int) ∧
        (ts : Int) - (checkin : Int) < 86400) →
      topOutTotal total checkin ts = total) ∧
    (∀ (u : Int) (t1 t2 day : Nat), t1 < t2 → day * 86400 ≤ t1 →
      t2 ≤ day * 86400 + 86399 →
      getWorkTimeSeconds (dbOutThenIn u t1 t2) u day = 0) := by
  refine ⟨?_, ?_, ?_, ?_⟩
  · intro db u day
    unfold getWorkTimeSeconds
    apply pairsSeconds_validPairs
    intro p hp
    have hb := scanPairs_bounds (day * 86400) (day * 86400 + 86399)
      (getEventsByPeriod db u (day * 86400) (day * 86400 + 86399)) none
      (sortTsAsc_sorted _)
      ?_ (fun t ht => absurd ht (by simp)) p hp
    · exact ⟨hb.1, by omega⟩
    · intro e he
      unfold getEventsByPeriod at he
      have hm := (sortTsAsc_perm _).mem_iff.1 he
      rw [List.mem_filter] at hm
      simp only [Bool.and_eq_true, decide_eq_true_eq] at hm
      exact ⟨hm.2.1.2, hm.2.2⟩
  · intro db u s e day
    unfold pivotDaySeconds
    apply pairsSeconds_validPairs
    intro p hp
    have hb := scanPairs_bounds (day * 86400) (day * 86400 + 86399)
      (sortTsAsc (db.events.filter (fun ev =>
        ev.user_id = u && s * 86400 ≤ ev.ts &&
          ev.ts ≤ e * 86400 + 86399 && dayOf ev.ts = day))) none
      (sortTsAsc_sorted _)
      ?_ (fun t ht => absurd ht (by simp)) p hp
    · exact ⟨hb.1, by omega⟩
    · intro ev hev
      have hm := (sortTsAsc_perm _).mem_iff.1 hev
      rw [List.mem_filter] at hm
      simp only [Bool.and_eq_true, decide_eq_true_eq] at hm
      have hd : ev.ts / 86400 = day := hm.2.2
      constructor
      · omega
      · omega
  · intro total checkin ts h
    simp only [topOutTotal]
    rw [if_neg h]
  · intro u t1 t2 day h12 hlo hhi
    have hfil : (dbOutThenIn u t1 t2).events.filter (fun e =>
        e.user_id = u && day * 86400 ≤ e.ts &&
          e.ts ≤ day * 86400 + 86399) = (dbOutThenIn u t1 t2).events := by
      rw [List.filter_eq_self]
      intro a ha
      simp only [dbOutThenIn, List.mem_cons, List.not_mem_nil, or_false] at ha
      rcases ha with rfl | rfl <;>
        simp only [Bool.and_eq_true, decide_eq_true_eq] <;>
        exact ⟨⟨by trivial, by omega⟩, by omega⟩
    unfold getWorkTimeSeconds getEventsByPeriod
    rw [hfil]
    have hsort : sortTsAsc (dbOutThenIn u t1 t2).events
        = (dbOutThenIn u t1 t2).events := by
      simp only [dbOutThenIn, sortTsAsc, insertTsAsc]
      rw [if_neg (by simp; omega)]
    rw [hsort]
    simp [dbOutThenIn, scanPairs, pairsSeconds]

/-- C6 witness: the guard refuses a negative span, and the out-then-in
    store aggregates to zero without error. -/
theorem c6_implausible_intervals_discarded_witness :
    (¬(0 < (10 : Int) - (20 : Int) ∧ (10 : Int) - (20 : Int) < 86400) ∧
      topOutTotal 0 20 10 = 0) ∧
    ((10 : Nat) < 20 ∧ (0 : Nat) * 86400 ≤ 10 ∧
      (20 : Nat) ≤ 0 * 86400 + 86399 ∧
      getWorkTimeSeconds (dbOutThenIn 1 10 20) 1 0 = 0) :=
  ⟨⟨by decide,
    c6_implausible_intervals_discarded.2.2.1 0 20 10 (by decide)⟩,
   ⟨by decide, by decide, by decide,
    c6_implausible_intervals_discarded.2.2.2 1 10 20 0 (by decide) (by decide)
      (by decide)⟩⟩

/-- A store holding exactly in@t1, in@t2, out@t3 for one user — the
    malformed double-in pattern of C7. -/
def dbDoubleIn (u : Int) (t1 t2 t3 : Nat) : Db :=
  ⟨[⟨u, "A"⟩],
   [⟨1, u, "global", "in", t1⟩, ⟨2, u, "global", "in", t2⟩,
    ⟨3, u, "global", "out", t3⟩], []⟩

/-- C7: for the event pattern [in@t1, in@t2, out@t3] within one day, the
    pairing scan closes exactly one pair [t2, t3): the later 'in'
    supersedes the earlier open checkin and no pair is emitted for it, so
    both get_work_time and the pivot cell total t3 - t2. -/
theorem c7_double_in_superseded (u : Int) (t1 t2 t3 day : Nat)
    (h12 : t1 < t2) (h23 : t2 < t3)
    (hlo : day * 86400 ≤ t1) (hhi : t3 ≤ day * 86400 + 86399) :
    scanPairs (getEventsByPeriod (dbDoubleIn u t1 t2 t3) u
        (day * 86400) (day * 86400 + 86399)) none = [(t2, t3)] ∧
    getWorkTimeSeconds (dbDoubleIn u t1 t2 t3) u day
      = (t3 : Int) - (t2 : Int) ∧
    pivotDaySeconds (dbDoubleIn u t1 t2 t3) u day day day
      = (t3 : Int) - (t2 : Int) := by
  have hsort : sortTsAsc (dbDoubleIn u t1 t2 t3).events
      = (dbDoubleIn u t1 t2 t3).events := by
    simp only [dbDoubleIn, sortTsAsc, insertTsAsc]
    rw [if_neg (show ¬(t3 ≤ t2) by omega)]
    simp only [insertTsAsc]
    rw [if_neg (show ¬(t2 ≤ t1) by omega)]
  have hscan : scanPairs (dbDoubleIn u t1 t2 t3).events none = [(t2, t3)] := by
    simp [dbDoubleIn, scanPairs]
  have hfil : (dbDoubleIn u t1 t2 t3).events.filter (fun e =>
      e.user_id = u && day * 86400 ≤ e.ts &&
        e.ts ≤ day * 86400 + 86399) = (dbDoubleIn u t1 t2 t3).events := by
    rw [List.filter_eq_self]
    intro a ha
    simp only [dbDoubleIn, List.mem_cons, List.not_mem_nil, or_false] at ha
    rcases ha with rfl | rfl | rfl <;>
      simp only [Bool.and_eq_true, decide_eq_true_eq] <;>
      exact ⟨⟨by trivial, by omega⟩, by omega⟩
  have hfil₂ : (dbDoubleIn u t1 t2 t3).events.filter (fun e =>
      e.user_id = u && day * 86400 ≤ e.ts &&
        e.ts ≤ day * 86400 + 86399 && dayOf e.ts = day)
      = (dbDoubleIn u t1 t2 t3).events := by
    rw [List.filter_eq_self]
    intro a ha
    simp only [dbDoubleIn, List.mem_cons, List.not_mem_nil, or_false] at ha
    rcases ha with rfl | rfl | rfl <;>
      simp only [Bool.and_eq_true, decide_eq_true_eq, dayOf] <;>
      exact ⟨⟨⟨by trivial, by omega⟩, by omega⟩, by omega⟩
  refine ⟨?_, ?_, ?_⟩
  · unfold getEventsByPeriod
    rw [hfil, hsort, hscan]
  · unfold getWorkTimeSeconds getEventsByPeriod
    rw [hfil, hsort, hscan]
    simp [pairsSeconds]
  · unfold pivotDaySeconds
    rw [hfil₂, hsort, hscan]
    simp [pairsSeconds]

/-- C7 witness: the pattern at t1=10, t2=20, t3=30 on day 0 totals 10
    seconds from the single pair (20, 30). -/
theorem c7_double_in_superseded_witness :
    (10 : Nat) < 20 ∧ (20 : Nat) < 30 ∧
    (0 : Nat) * 86400 ≤ 10 ∧ (30 : Nat) ≤ 0 * 86400 + 86399 ∧
    (scanPairs (getEventsByPeriod (dbDoubleIn 1 10 20 30) 1
        (0 * 86400) (0 * 86400 + 86399)) none = [(20, 30)] ∧
      getWorkTimeSeconds (dbDoubleIn 1 10 20 30) 1 0
        = (30 : Int) - (20 : Int) ∧
      pivotDaySeconds (dbDoubleIn 1 10 20 30) 1 0 0 0
        = (30 : Int) - (20 : Int)) :=
  ⟨by decide, by decide, by decide, by decide,
   c7_double_in_superseded 1 10 20 30 0 (by decide) (by decide) (by decide)
     (by decide)⟩

/-- C5 counterexample: one interval from 23:00 of day 0 (ts 82800) to
    01:00 of day 1 (ts 90000).  The claim attributes its full 7200 s to
    day 0, but both the pivot cells and the top-workers day totals are 0
    for both days: the events are bucketed by their own dates before
    pairing, so the cross-midnight pair never closes and is dropped. -/
theorem c5_counterexample :
    pivotDaySeconds
      ⟨[⟨1, "A"⟩],
       [⟨1, 1, "global", "in", 82800⟩, ⟨2, 1, "global", "out", 90000⟩], []⟩
      1 0 1 0 = 0 ∧
    pivotDaySeconds
      ⟨[⟨1, "A"⟩],
       [⟨1, 1, "global", "in", 82800⟩, ⟨2, 1, "global", "out", 90000⟩], []⟩
      1 0 1 1 = 0 ∧
    topWorkersDayTotal
      ⟨[⟨1, "A"⟩],
       [⟨1, 1, "global", "in", 82800⟩, ⟨2, 1, "global", "out", 90000⟩], []⟩
      0 1 0 = 0 ∧
    topWorkersDayTotal
      ⟨[⟨1, "A"⟩],
       [⟨1, 1, "global", "in", 82800⟩, ⟨2, 1, "global", "out", 90000⟩], []⟩
      0 1 1 = 0 ∧
    (90000 : Int) - 82800 = 7200 ∧ (0 : Int) ≠ 7200 := by
  decide

/-- A store holding one in/out pair whose two events lie on different
    calendar dates. -/
def dbCrossMidnight (u : Int) (a b : Nat) : Db :=
  ⟨[⟨u, "A"⟩],
   [⟨1, u, "global", "in", a⟩, ⟨2, u, "global", "out", b⟩], []⟩

/-- All accumulated totals of a daily_hours state are zero. -/
def TotalsZero (m : List ((Int × Nat) × DayAcc)) : Prop :=
  ∀ p ∈ m, p.2.total = 0

theorem lookupAcc_mem (m : List ((Int × Nat) × DayAcc)) (k : Int × Nat)
    (a : DayAcc) (h : lookupAcc m k = some a) : ∃ p ∈ m, p.2 = a := by
  unfold lookupAcc at h
  cases hf : List.find? (fun p => p.1 = k) m with
  | none => rw [hf] at h; exact absurd h (by simp)
  | some p =>
      rw [hf] at h
      exact ⟨p, List.mem_of_find?_eq_some hf, Option.some.inj h⟩

theorem lookupAcc_none_of_keys (m : List ((Int × Nat) × DayAcc))
    (k : Int × Nat) (h : ∀ p ∈ m, p.1 ≠ k) : lookupAcc m k = none := by
  unfold lookupAcc
  rw [List.find?_eq_none.mpr]
  intro p hp
  simpa using h p hp

theorem totalsZero_setAcc (m : List ((Int × Nat) × DayAcc)) (k : Int × Nat)
    (v : DayAcc) (hm : TotalsZero m) (hv : v.total = 0) :
    TotalsZero (setAcc m k v) := by
  unfold setAcc
  by_cases hs : (List.find? (fun p => p.1 = k) m).isSome
  · rw [if_pos hs]
    intro p hp
    rw [List.mem_map] at hp
    obtain ⟨q, hq, hqp⟩ := hp
    by_cases hqk : q.1 = k
    · rw [if_pos hqk] at hqp; rw [← hqp]; exact hv
    · rw [if_neg hqk] at hqp; rw [← hqp]; exact hm q hq
  · rw [if_neg hs]
    intro p hp
    rw [List.mem_append] at hp
    rcases hp with hp | hp
    · exact hm p hp
    · rw [List.mem_singleton] at hp
      rw [hp]
      exact hv

/-- A topStep whose 'out' branch can close nothing (no open checkin at
    its key) keeps all totals at zero. -/
theorem topStep_totalsZero (m : List ((Int × Nat) × DayAcc)) (e : Event)
    (hm : TotalsZero m)
    (hcheck : e.action = "out" →
      ((lookupAcc m (e.user_id, dayOf e.ts)).getD ⟨0, none⟩).checkin = none) :
    TotalsZero (topStep m e) := by
  unfold topStep
  have htot : ((lookupAcc m (e.user_id, dayOf e.ts)).getD ⟨0, none⟩).total
      = 0 := by
    cases hl : lookupAcc m (e.user_id, dayOf e.ts) with
    | none => rfl
    | some a =>
        obtain ⟨p, hp, hpa⟩ := lookupAcc_mem m _ a hl
        simpa [hpa] using hm p hp
  have hm₀ : TotalsZero
      (if (lookupAcc m (e.user_id, dayOf e.ts)).isSome then m
       else setAcc m (e.user_id, dayOf e.ts) ⟨0, none⟩) := by
    by_cases hs : (lookupAcc m (e.user_id, dayOf e.ts)).isSome
    · rw [if_pos hs]; exact hm
    · rw [if_neg hs]; exact totalsZero_setAcc m _ _ hm rfl
  by_cases hin : e.action = "in"
  · rw [if_pos hin]
    exact totalsZero_setAcc _ _ _ hm₀ htot
  · rw [if_neg hin]
    by_cases hout : e.action = "out"
    · rw [if_pos hout]
      rw [hcheck hout]
      exact hm₀
    · rw [if_neg hout]
      exact hm₀

/-- Every key created by a topStep from the empty state is the stepped
    event's own (user, date) key. -/
theorem topStep_nil_key (e : Event) :
    ∀ p ∈ topStep [] e, p.1 = (e.user_id, dayOf e.ts) := by
  intro p hp
  unfold topStep at hp
  simp only [lookupAcc, List.find?, Option.isSome_none, Bool.false_eq_true,
    if_false, Option.getD_none] at hp
  have hset : setAcc [] (e.user_id, dayOf e.ts) ⟨0, none⟩
      = [((e.user_id, dayOf e.ts), ⟨0, none⟩)] := by
    simp [setAcc, List.find?]
  rw [hset] at hp
  by_cases hin : e.action = "in"
  · rw [if_pos hin] at hp
    unfold setAcc at hp
    simp only [List.find?, List.map] at hp
    rw [if_pos (by simp), if_pos (by simp)] at hp
    simp only [List.mem_singleton] at hp
    rw [hp]
  · rw [if_neg hin] at hp
    by_cases hout : e.action = "out"
    · rw [if_pos hout] at hp
      simp only [List.mem_singleton] at hp
      rw [hp]
    · rw [if_neg hout] at hp
      simp only [List.mem_singleton] at hp
      rw [hp]

theorem totalsZero_dayTotal (m : List ((Int × Nat) × DayAcc))
    (k : Int × Nat) (hm : TotalsZero m) :
    ((lookupAcc m k).getD ⟨0, none⟩).total = 0 := by
  cases hl : lookupAcc m k with
  | none => rfl
  | some a =>
      obtain ⟨p, hp, hpa⟩ := lookupAcc_mem m k a hl
      simpa [hpa] using hm p hp

theorem totalsZero_nil : TotalsZero [] :=
  fun p hp => absurd hp (List.not_mem_nil p)

/-- C5 amended: day-level reports bucket each event by its own calendar
    date before pairing, so an interval whose 'in' and 'out' fall on
    different dates never closes: it contributes nothing to any pivot
    cell and nothing to any top-workers day total — dropped entirely,
    neither split nor attributed to its start date. -/
theorem c5_midnight_interval_dropped (u : Int) (a b : Nat)
    (hd : dayOf a ≠ dayOf b) :
    (∀ s e day, pivotDaySeconds (dbCrossMidnight u a b) u s e day = 0) ∧
    (∀ since day,
      topWorkersDayTotal (dbCrossMidnight u a b) since u day = 0) := by
  constructor
  · intro s e day
    unfold pivotDaySeconds dbCrossMidnight
    simp only [List.filter_cons, List.filter_nil]
    split
    · split
      · rename_i h1 h2
        exfalso
        simp only [Bool.and_eq_true, decide_eq_true_eq] at h1 h2
        exact hd (h1.2.trans h2.2.symm)
      · simp [sortTsAsc, insertTsAsc, scanPairs, pairsSeconds]
    · split
      · simp [sortTsAsc, insertTsAsc, scanPairs, pairsSeconds]
      · simp [sortTsAsc, scanPairs, pairsSeconds]
  · intro since day
    unfold topWorkersDayTotal
    apply totalsZero_dayTotal
    unfold topWorkersDailyHours dbCrossMidnight
    simp only [List.filter_cons, List.filter_nil]
    split
    · split
      · -- both events kept: fold over the (user, ts)-sorted pair
        simp only [sortUserTs, insertUserTs]
        split
        · -- order [out@b, in@a]
          simp only [List.foldl_cons, List.foldl_nil]
          apply topStep_totalsZero
          · exact topStep_totalsZero [] _ totalsZero_nil (fun _ => rfl)
          · intro hout
            change ("in" : String) = "out" at hout
            exact absurd hout (by decide)
        · -- order [in@a, out@b]
          simp only [List.foldl_cons, List.foldl_nil]
          apply topStep_totalsZero
          · exact topStep_totalsZero [] _ totalsZero_nil (fun _ => rfl)
          · intro _
            rw [lookupAcc_none_of_keys _ _ ?_]
            · rfl
            · intro p hp
              rw [topStep_nil_key _ p hp]
              intro hk
              exact hd (congrArg Prod.snd hk)
      · -- only in@a kept
        simp only [sortUserTs, insertUserTs, List.foldl_cons, List.foldl_nil]
        exact topStep_totalsZero [] _ totalsZero_nil (fun _ => rfl)
    · split
      · -- only out@b kept
        simp only [sortUserTs, insertUserTs, List.foldl_cons, List.foldl_nil]
        exact topStep_totalsZero [] _ totalsZero_nil (fun _ => rfl)
      · exact totalsZero_nil

/-- C5 witness: the 23:00-to-01:00 interval of the counterexample run
    through the amended statement. -/
theorem c5_midnight_interval_dropped_witness :
    dayOf 82800 ≠ dayOf 90000 ∧
    (pivotDaySeconds (dbCrossMidnight 1 82800 90000) 1 0 1 0 = 0 ∧
      pivotDaySeconds (dbCrossMidnight 1 82800 90000) 1 0 1 1 = 0) ∧
    (topWorkersDayTotal (dbCrossMidnight 1 82800 90000) 0 1 0 = 0 ∧
      topWorkersDayTotal (dbCrossMidnight 1 82800 90000) 0 1 1 = 0) :=
  ⟨by decide,
   ⟨(c5_midnight_interval_dropped 1 82800 90000 (by decide)).1 0 1 0,
    (c5_midnight_interval_dropped 1 82800 90000 (by decide)).1 0 1 1⟩,
   ⟨(c5_midnight_interval_dropped 1 82800 90000 (by decide)).2 0 0,
    (c5_midnight_interval_dropped 1 82800 90000 (by decide)).2 0 1⟩⟩

/-- SQL MIN over a possibly empty list (NULL as none). -/
def minNat? : List Nat → Option Nat
  | [] => none
  | x :: xs =>
      match minNat? xs with
      | none => some x
      | some m => some (min x m)

/-- SQL MAX over a possibly empty list (NULL as none). -/
def maxNat? : List Nat → Option Nat
  | [] => none
  | x :: xs =>
      match maxNat? xs with
      | none => some x
      | some m => some (max x m)

/-- One row of get_overtime_report (database.py:1759-1801), modelled in
    seconds: the query divides by 3600.0 and compares work_hours with the
    standard; dividing by 3600 is strictly monotone, so the row set is
    unchanged when both sides are expressed in seconds (stdSecs =
    standard_hours_per_day * 3600).  The round(x, 2) display rounding is
    omitted. -/
structure OvertimeEntry where
  fio : String
  work_date : Nat
  work_secs : Int
  standard_secs : Int
  overtime_secs : Int
deriving Repr, DecidableEq

/-- The GROUP BY p.fio key set: distinct fio values of the people
    table. -/
def peopleFios (db : Db) : List String :=
  (db.people.map (fun p => p.fio)).dedup

/-- JOIN people p ON e.user_id = p.tg_user_id restricted to one fio. -/
def joinFio (db : Db) (e : Event) (fio : String) : Bool :=
  db.people.any (fun p => p.tg_user_id = e.user_id && p.fio = fio)

/-- Whether the (fio, date) group of get_overtime_report exists: some
    range row e with action 'in' on that date joins that fio.  The query's
    range bounds are whole days, so a row of date d lies in range exactly
    when startDay ≤ d ≤ endDay; the day enumeration supplies that. -/
def overtimeGateExists (db : Db) (fio : String) (d : Nat) : Bool :=
  db.events.any (fun e =>
    joinFio db e fio && e.action = "in" && dayOf e.ts = d)

/-- The e2 side of the self-join: all events of any user contributing an
    'in' row to the (fio, d) group, on the same date d (the join has no
    range condition of its own). -/
def overtimeE2 (db : Db) (fio : String) (d : Nat) : List Event :=
  db.events.filter (fun e2 => dayOf e2.ts = d &&
    db.events.any (fun e => e.user_id = e2.user_id && e.action = "in" &&
      dayOf e.ts = d && joinFio db e fio))

/-- work_hours numerator of get_overtime_report in seconds:
    strftime of MAX(out ts) minus MIN(in ts) over the joined rows; NULL
    (none) when the group is absent or holds no 'out'. -/
def overtimeSpanSecs (db : Db) (fio : String) (d : Nat) : Option Int :=
  if overtimeGateExists db fio d then
    match maxNat? (((overtimeE2 db fio d).filter
            (fun e => e.action = "out")).map (fun e => e.ts)),
          minNat? (((overtimeE2 db fio d).filter
            (fun e => e.action = "in")).map (fun e => e.ts)) with
    | some M, some m => some ((M : Int) - (m : Int))
    | _, _ => none
  else none

/-- The calendar days of an inclusive range. -/
def dayRange (s e : Nat) : List Nat :=
  (List.range (e + 1 - s)).map (fun i => s + i)

/-- Database.get_overtime_report (database.py:1759-1801): one row per
    (fio, date) group whose span — last 'out' minus first 'in' of the day,
    not a paired-interval sum — strictly exceeds the standard;
    overtime = span - standard.  The ORDER BY work_hours DESC output order
    is not modelled; the claims concern membership. -/
def getOvertimeReport (db : Db) (startDay endDay : Nat) (stdSecs : Int) :
    List OvertimeEntry :=
  (peopleFios db).flatMap (fun fio =>
    (dayRange startDay endDay).filterMap (fun d =>
      match overtimeSpanSecs db fio d with
      | some span =>
          if stdSecs < span then
            some ⟨fio, d, span, stdSecs, span - stdSecs⟩
          else none
      | none => none))

theorem mem_dayRange (s e d : Nat) : d ∈ dayRange s e ↔ s ≤ d ∧ d ≤ e := by
  unfold dayRange
  rw [List.mem_map]
  constructor
  · rintro ⟨i, hi, rfl⟩
    rw [List.mem_range] at hi
    omega
  · rintro ⟨h1, h2⟩
    exact ⟨d - s, by rw [List.mem_range]; omega, by omega⟩

/-- C8 counterexample: user works 08:00-09:00 and 18:00-20:00 on day 0;
    the paired-interval sum is 3 h = 10800 s, at most the 8 h standard,
    yet the report emits the day with work span 12 h = 43200 s (last out
    minus first in) and overtime 4 h: the report duration is not the sum
    of paired in/out intervals. -/
theorem c8_counterexample :
    getOvertimeReport
      ⟨[⟨1, "A"⟩],
       [⟨1, 1, "global", "in", 28800⟩, ⟨2, 1, "global", "out", 32400⟩,
        ⟨3, 1, "global", "in", 64800⟩, ⟨4, 1, "global", "out", 72000⟩],
       []⟩ 0 0 28800 = [⟨"A", 0, 43200, 28800, 14400⟩] ∧
    getWorkTimeSeconds
      ⟨[⟨1, "A"⟩],
       [⟨1, 1, "global", "in", 28800⟩, ⟨2, 1, "global", "out", 32400⟩,
        ⟨3, 1, "global", "in", 64800⟩, ⟨4, 1, "global", "out", 72000⟩],
       []⟩ 1 0 = 10800 ∧
    ¬((28800 : Int) < 10800) := by
  decide

/-- C8 amended: the overtime report contains exactly the (fio, day)
    entries whose day span — last 'out' minus first 'in' of that user-day
    group, not the sum of paired in/out intervals — strictly exceeds the
    standard, and each entry carries overtime = span - standard, which is
    strictly positive. -/
theorem c8_overtime_entries (db : Db) (s e : Nat) (stdSecs : Int)
    (x : OvertimeEntry) :
    (x ∈ getOvertimeReport db s e stdSecs ↔
      ∃ fio d span, fio ∈ peopleFios db ∧ s ≤ d ∧ d ≤ e ∧
        overtimeSpanSecs db fio d = some span ∧ stdSecs < span ∧
        x = ⟨fio, d, span, stdSecs, span - stdSecs⟩) ∧
    (x ∈ getOvertimeReport db s e stdSecs → 0 < x.overtime_secs) := by
  have hmem : x ∈ getOvertimeReport db s e stdSecs ↔
      ∃ fio d span, fio ∈ peopleFios db ∧ s ≤ d ∧ d ≤ e ∧
        overtimeSpanSecs db fio d = some span ∧ stdSecs < span ∧
        x = ⟨fio, d, span, stdSecs, span - stdSecs⟩ := by
    unfold getOvertimeReport
    rw [List.mem_flatMap]
    constructor
    · rintro ⟨fio, hfio, hx⟩
      rw [List.mem_filterMap] at hx
      obtain ⟨d, hd, heq⟩ := hx
      rw [mem_dayRange] at hd
      cases hsp : overtimeSpanSecs db fio d with
      | none => rw [hsp] at heq; simp at heq
      | some span =>
          rw [hsp] at heq
          by_cases hlt : stdSecs < span
          · rw [show (match some span with
              | some span =>
                  if stdSecs < span then
                    some (⟨fio, d, span, stdSecs, span - stdSecs⟩
                      : OvertimeEntry)
                  else none
              | none => none) =
              if stdSecs < span then
                some (⟨fio, d, span, stdSecs, span - stdSecs⟩
                  : OvertimeEntry)
              else none from rfl, if_pos hlt] at heq
            exact ⟨fio, d, span, hfio, hd.1, hd.2, hsp, hlt,
              (Option.some.inj heq).symm⟩
          · rw [show (match some span with
              | some span =>
                  if stdSecs < span then
                    some (⟨fio, d, span, stdSecs, span - stdSecs⟩
                      : OvertimeEntry)
                  else none
              | none => none) =
              if stdSecs < span then
                some (⟨fio, d, span, stdSecs, span - stdSecs⟩
                  : OvertimeEntry)
              else none from rfl, if_neg hlt] at heq
            simp at heq
    · rintro ⟨fio, d, span, hfio, hd1, hd2, hsp, hlt, hx⟩
      refine ⟨fio, hfio, ?_⟩
      rw [List.mem_filterMap]
      refine ⟨d, (mem_dayRange s e d).2 ⟨hd1, hd2⟩, ?_⟩
      rw [hsp]
      show (if stdSecs < span then
          some (⟨fio, d, span, stdSecs, span - stdSecs⟩ : OvertimeEntry)
        else none) = some x
      rw [if_pos hlt, hx]
  refine ⟨hmem, ?_⟩
  intro hx
  obtain ⟨fio, d, span, _, _, _, _, hlt, hxe⟩ := hmem.1 hx
  rw [hxe]
  show 0 < span - stdSecs
  omega

/-- C8 witness: the counterexample store's single report row obtained
    through the amended characterization, with its strictly positive
    overtime. -/
theorem c8_overtime_entries_witness :
    ((⟨"A", 0, 43200, 28800, 14400⟩ : OvertimeEntry) ∈
      getOvertimeReport
        ⟨[⟨1, "A"⟩],
         [⟨1, 1, "global", "in", 28800⟩, ⟨2, 1, "global", "out", 32400⟩,
          ⟨3, 1, "global", "in", 64800⟩, ⟨4, 1, "global", "out", 72000⟩],
         []⟩ 0 0 28800) ∧
    (0 : Int) < 14400 :=
  ⟨(c8_overtime_entries
      ⟨[⟨1, "A"⟩],
       [⟨1, 1, "global", "in", 28800⟩, ⟨2, 1, "global", "out", 32400⟩,
        ⟨3, 1, "global", "in", 64800⟩, ⟨4, 1, "global", "out", 72000⟩],
       []⟩ 0 0 28800 ⟨"A", 0, 43200, 28800, 14400⟩).1.mpr
    ⟨"A", 0, 43200, by decide, by decide, by decide, by decide, by decide,
     by decide⟩,
   by decide⟩

/-- One row of get_weekly_stats (database.py:874-886): per-date tallies
    over the range. -/
structure DayStat where
  date : Nat
  checkins : Nat
  checkouts : Nat
  unique_users : Nat
deriving Repr, DecidableEq

/-- The result dict of get_analytics_summary (database.py:1146-1151). -/
structure Summary where
  total_users : Nat
  currently_present : Nat
  today_visits : Nat
  avg_work_time : ℚ
deriving Repr, DecidableEq

/-- Python round(x, 1).  Python rounds half to even while this rounds
    half up; no claim is evaluated at a half-boundary. -/
def round1 (q : ℚ) : ℚ := (round (q * 10) : ℤ) / 10

/-- The GROUP BY DATE(ts) query of get_weekly_stats: only dates holding
    at least one event appear, ordered by date; its range bounds are whole
    days, so membership of a row reduces to its own date. -/
def computeWeekly (db : Db) (s e : Nat) : List DayStat :=
  (dayRange s e).filterMap (fun d =>
    let dayEvents := db.events.filter (fun ev => dayOf ev.ts = d)
    if dayEvents.isEmpty then none
    else some ⟨d,
      (dayEvents.filter (fun ev => ev.action = "in")).length,
      (dayEvents.filter (fun ev => ev.action = "out")).length,
      ((dayEvents.map (fun ev => ev.user_id)).dedup).length⟩)

/-- One (user, date) group of the avg-work-time subquery of
    get_analytics_summary (database.py:1130-1142): last 'out' minus first
    'in' of the group, in hours; NULL when either side is missing. -/
def summaryGroupSpan (db : Db) (since : Nat) (u : Int) (d : Nat) :
    Option ℚ :=
  let evs := db.events.filter (fun e2 => e2.user_id = u &&
    dayOf e2.ts = d && since ≤ e2.ts &&
    (e2.action = "in" || e2.action = "out"))
  match maxNat? ((evs.filter (fun ev => ev.action = "out")).map
          (fun ev => ev.ts)),
        minNat? ((evs.filter (fun ev => ev.action = "in")).map
          (fun ev => ev.ts)) with
  | some M, some m => some (((M : ℚ) - (m : ℚ)) / 3600)
  | _, _ => none

/-- The (user_id, date) group keys of the avg-work-time subquery. -/
def summaryGroups (db : Db) (since : Nat) : List (Int × Nat) :=
  ((db.events.filter (fun ev => since ≤ ev.ts &&
      (ev.action = "in" || ev.action = "out"))).map
    (fun ev => (ev.user_id, dayOf ev.ts))).dedup

/-- The work_hours rows surviving HAVING 0 < work_hours < 24. -/
def summaryWorkHours (db : Db) (since : Nat) : List ℚ :=
  (summaryGroups db since).filterMap (fun g =>
    match summaryGroupSpan db since g.1 g.2 with
    | some h => if 0 < h ∧ h < 24 then some h else none
    | none => none)

/-- Database.get_analytics_summary's database path
    (database.py:1108-1151): total users, currently present, distinct
    users checked in today, and the rounded 30-day average work time (0
    when the subquery yields no rows). -/
def computeSummary (db : Db) (now : Nat) : Summary :=
  { total_users := db.people.length
    currently_present := (getCurrentlyPresent db).length
    today_visits := (((db.events.filter (fun ev =>
        dayOf ev.ts = dayOf now && ev.action = "in")).map
      (fun ev => ev.user_id)).dedup).length
    avg_work_time :=
      match summaryWorkHours db (now - 2592000) with
      | [] => 0
      | l => round1 ((l.foldr (fun q acc => q + acc) 0) / (l.length : ℚ)) }

/-- What the single shared Redis key "analytics:weekly"
    (CacheKeys.ANALYTICS_WEEKLY, utils/cache.py:153) can hold: the
    weekly-stats wrapper dict {"key": .., "data": ..} written by
    get_weekly_stats, or the summary dict written by
    get_analytics_summary.  Both dicts are nonempty, hence truthy. -/
inductive WeeklyCacheVal where
  | weeklyEntry (key : Nat × Nat) (data : List DayStat)
  | summaryEntry (s : Summary)
deriving Repr, DecidableEq

/-- Database.get_weekly_stats (database.py:859-891): read the shared
    analytics:weekly slot; use it only when its embedded "key" field
    matches this range (a summary dict has no "key" field and never
    matches); else recompute and overwrite the slot. -/
def getWeeklyStats (db : Db) (slot : Option WeeklyCacheVal) (s e : Nat) :
    List DayStat × Option WeeklyCacheVal :=
  match slot with
  | some (.weeklyEntry k data) =>
      if k = (s, e) then (data, some (.weeklyEntry k data))
      else
        (computeWeekly db s e,
         some (.weeklyEntry (s, e) (computeWeekly db s e)))
  | _ =>
      (computeWeekly db s e,
       some (.weeklyEntry (s, e) (computeWeekly db s e)))

/-- Database.get_analytics_summary (database.py:1099-1156): its local
    cache_key = "analytics_summary" is computed but never used — the
    function reads and writes the same analytics:weekly slot as
    get_weekly_stats, and returns whatever truthy value that slot holds,
    of either shape. -/
def getAnalyticsSummary (db : Db) (slot : Option WeeklyCacheVal)
    (now : Nat) : WeeklyCacheVal × Option WeeklyCacheVal :=
  match slot with
  | some v => (v, some v)
  | none =>
      (.summaryEntry (computeSummary db now),
       some (.summaryEntry (computeSummary db now)))

/-- C9: after get_weekly_stats caches its range under the shared
    analytics:weekly key, get_analytics_summary returns that weekly-stats
    cache entry — a value of the weekly shape, not any summary — so the
    two reports' cache entries are not independent and a value cached for
    one query is returned as the answer to the other. -/
theorem c9_weekly_summary_cache_collision :
    ((getWeeklyStats ⟨[⟨1, "A"⟩], [⟨1, 1, "global", "in", 3600⟩], []⟩
        none 0 1).1 = [⟨0, 1, 0, 1⟩]) ∧
    ((getAnalyticsSummary ⟨[⟨1, "A"⟩], [⟨1, 1, "global", "in", 3600⟩], []⟩
        (getWeeklyStats ⟨[⟨1, "A"⟩], [⟨1, 1, "global", "in", 3600⟩], []⟩
          none 0 1).2 100000).1
      = WeeklyCacheVal.weeklyEntry (0, 1) [⟨0, 1, 0, 1⟩]) ∧
    (∀ sm : Summary,
      (getAnalyticsSummary ⟨[⟨1, "A"⟩], [⟨1, 1, "global", "in", 3600⟩], []⟩
        (getWeeklyStats ⟨[⟨1, "A"⟩], [⟨1, 1, "global", "in", 3600⟩], []⟩
          none 0 1).2 100000).1
      ≠ WeeklyCacheVal.summaryEntry sm) := by
  refine ⟨by decide, by decide, ?_⟩
  intro sm
  rw [show (getAnalyticsSummary
      ⟨[⟨1, "A"⟩], [⟨1, 1, "global", "in", 3600⟩], []⟩
      (getWeeklyStats ⟨[⟨1, "A"⟩], [⟨1, 1, "global", "in", 3600⟩], []⟩
        none 0 1).2 100000).1
    = WeeklyCacheVal.weeklyEntry (0, 1) [⟨0, 1, 0, 1⟩] from by decide]
  exact fun hc => WeeklyCacheVal.noConfusion hc
